import Mathlib

/-
Verification of the bellhopcuda core against its specification.

Shallow embedding conventions:
- C++ `real`/`float` quantities are modelled as rationals (ℚ); the claims under
  study are algebraic/structural, not about floating-point rounding.
- `int32_t` counters are modelled as ℕ or ℤ; overflow is irrelevant at the
  magnitudes involved (counts bounded by table sizes).
- `cpx` (complex delay) is a pair of rationals; its modulus is compared against
  the tolerance by an exact square comparison (see `delayClose_iff_abs`, which
  proves the encoding equivalent to the real-valued comparison of the source).
- The arrival table is addressed per cell (`GetFieldAddr` selects a flat cell
  index; `AddArr` only ever touches one cell), so the model is a single cell:
  a fixed-length slot list plus the `NArr` counter.
-/

set_option maxHeartbeats 1000000

namespace BellhopProof

/-- Complex number over ℚ, modelling the C++ `cpx` delay values. -/
structure Cpx where
  re : ℚ
  im : ℚ
deriving DecidableEq, Inhabited

def Cpx.add (z w : Cpx) : Cpx := ⟨z.re + w.re, z.im + w.im⟩

def Cpx.sub (z w : Cpx) : Cpx := ⟨z.re - w.re, z.im - w.im⟩

def Cpx.smul (c : ℚ) (z : Cpx) : Cpx := ⟨c * z.re, c * z.im⟩

/-- Squared modulus of a complex delay. -/
def Cpx.normSq (z : Cpx) : ℚ := z.re * z.re + z.im * z.im

/-- Interpretation of a model complex number as a Mathlib complex number. -/
def Cpx.toComplex (z : Cpx) : Complex := ⟨(z.re : ℝ), (z.im : ℝ)⟩

/-- One record of the arrival table (src/src/arrivals.hpp, struct Arrival from
the common header): amplitude, phase, complex delay, source/receiver angles,
bounce counts. -/
structure Arrival where
  a : ℚ
  Phase : ℚ
  delay : Cpx
  SrcDeclAngle : ℚ
  SrcAzimAngle : ℚ
  RcvrDeclAngle : ℚ
  RcvrAzimAngle : ℚ
  NTopBnc : ℤ
  NBotBnc : ℤ
deriving DecidableEq, Inhabited

/-- The zero record produced by the memset in `InitArrivalsMode`. -/
def zeroArrival : Arrival := ⟨0, 0, ⟨0, 0⟩, 0, 0, 0, 0, 0, 0⟩

/-- One cell of the arrival table: the `MaxNArr` slots at
`Arr[base * MaxNArr ..]` together with the counter `NArr[base]`. -/
structure ArrCell where
  arr : List Arrival
  nArr : ℕ
deriving DecidableEq

/-- The arguments of one `AddArr` call that describe the candidate arrival. -/
structure AddArrReq where
  Amp : ℚ
  omega : ℚ
  Phase : ℚ
  delay : Cpx
  SrcDeclAngle : ℚ
  SrcAzimAngle : ℚ
  RcvrDeclAngle : ℚ
  RcvrAzimAngle : ℚ
  NumTopBnc : ℤ
  NumBotBnc : ℤ
deriving DecidableEq, Inhabited

/-- The record written for a fresh (non-merged) arrival: the field assignments
`baseArr[iArr].a = Amp; ... .NBotBnc = NumBotBnc` of AddArr. -/
def AddArrReq.toArrival (r : AddArrReq) : Arrival :=
  ⟨r.Amp, r.Phase, r.delay, r.SrcDeclAngle, r.SrcAzimAngle,
   r.RcvrDeclAngle, r.RcvrAzimAngle, r.NumTopBnc, r.NumBotBnc⟩

/-- `PhaseTol = FL(0.05)` in `IsSecondStepOfPair`. -/
def PhaseTol : ℚ := 1 / 20

/-- The test `omega * STD::abs(delay - prev.delay) < PhaseTol` of
`IsSecondStepOfPair`, decided over ℚ by comparing squares.  This encoding is
exactly equivalent to the real-valued comparison because `PhaseTol` is
positive: see `delayClose_iff_abs`. -/
def delayClose (omega : ℚ) (dz : Cpx) : Bool :=
  decide (omega ≤ 0) || decide (omega ^ 2 * Cpx.normSq dz < PhaseTol ^ 2)

/-- src/src/arrivals.hpp `IsSecondStepOfPair`: the candidate pairs with the
most recent stored arrival iff `Nt >= 1`, the scaled delay difference is
below `PhaseTol`, and the phase difference is below `PhaseTol`. -/
def IsSecondStepOfPair (omega Phase : ℚ) (delay : Cpx) (arr : List Arrival)
    (Nt : ℕ) : Bool :=
  decide (1 ≤ Nt)
    && delayClose omega (Cpx.sub delay (arr.getD (Nt - 1) default).delay)
    && decide (|(arr.getD (Nt - 1) default).Phase - Phase| < PhaseTol)

/-- The weakest-arrival scan of AddArr:
`iArr = -1; weakest = Amp; for(Nt = 0..MaxNArr-1) if(baseArr[Nt].a < weakest)
\x7b weakest = baseArr[Nt].a; iArr = Nt; \x7d`.
Returns the final `(weakest, iArr)`, with `iArr = none` for the sentinel -1. -/
def weakestLoop : List Arrival → ℚ → Option ℕ → ℕ → ℚ × Option ℕ
  | [], w, iArr, _ => (w, iArr)
  | a :: rest, w, iArr, n =>
      if a.a < w then weakestLoop rest a.a (some n) (n + 1)
      else weakestLoop rest w iArr (n + 1)

/-- The merged record of the `IsSecondStepOfPair` branch of AddArr: amplitude
becomes the total, delay and the four angles become amplitude-weighted
averages; phase and bounce counts are left as stored. -/
def mergeArrival (prev : Arrival) (r : AddArrReq) : Arrival :=
  let AmpTot := prev.a + r.Amp
  let w1 := prev.a / AmpTot
  let w2 := r.Amp / AmpTot
  ⟨AmpTot, prev.Phase,
   Cpx.add (Cpx.smul w1 prev.delay) (Cpx.smul w2 r.delay),
   w1 * prev.SrcDeclAngle + w2 * r.SrcDeclAngle,
   w1 * prev.SrcAzimAngle + w2 * r.SrcAzimAngle,
   w1 * prev.RcvrDeclAngle + w2 * r.RcvrDeclAngle,
   w1 * prev.RcvrAzimAngle + w2 * r.RcvrAzimAngle,
   prev.NTopBnc, prev.NBotBnc⟩

/-- src/src/arrivals.hpp `AddArr`, acting on the one cell selected by
`GetFieldAddr`.  `allowMerging = true` is the single-worker policy;
`allowMerging = false` is the atomic-append policy, whose
`AtomicFetchAdd(baseNArr, 1)` is the unconditional counter increment. -/
def AddArr (allowMerging : Bool) (maxNArr : ℕ) (r : AddArrReq)
    (cell : ArrCell) : ArrCell :=
  if allowMerging then
    let Nt := cell.nArr
    if IsSecondStepOfPair r.omega r.Phase r.delay cell.arr Nt = false then
      if maxNArr ≤ Nt then
        match (weakestLoop cell.arr r.Amp none 0).2 with
        | none => cell
        | some i => ⟨cell.arr.set i r.toArrival, cell.nArr⟩
      else
        ⟨cell.arr.set Nt r.toArrival, Nt + 1⟩
    else
      let prev := cell.arr.getD (Nt - 1) default
      ⟨cell.arr.set (Nt - 1) (mergeArrival prev r), cell.nArr⟩
  else
    let Nt := cell.nArr
    if maxNArr ≤ Nt then
      ⟨cell.arr, Nt + 1⟩
    else
      ⟨cell.arr.set Nt r.toArrival, Nt + 1⟩

/-- One cell as zero-initialized by `InitArrivalsMode` (memset of `Arr` and
`NArr`). -/
def InitArrivalsModeCell (maxNArr : ℕ) : ArrCell :=
  ⟨List.replicate maxNArr zeroArrival, 0⟩

/-- `MaxNArr = ArrMemSize / (nSrcsRcvrs * sizeof(Arrival))` of
`InitArrivalsMode` (integer division on size_t). -/
def MaxNArrOf (arrMemSize nSrcsRcvrs sizeofArrival : ℕ) : ℕ :=
  arrMemSize / (nSrcsRcvrs * sizeofArrival)

/-- A sequence of AddArr calls on one cell, in call order. -/
def runAddArr (allowMerging : Bool) (maxNArr : ℕ) (reqs : List AddArrReq)
    (cell : ArrCell) : ArrCell :=
  reqs.foldl (fun c r => AddArr allowMerging maxNArr r c) cell

/-- A request with all fields zero, used for concrete evaluations. -/
def zeroReq : AddArrReq := ⟨0, 0, 0, ⟨0, 0⟩, 0, 0, 0, 0, 0, 0⟩

/-- A one-slot cell holding a single stored arrival of amplitude 1, phase 0,
delay 0, used for concrete evaluations of the merge branch. -/
def cellC2 : ArrCell := ⟨[⟨1, 0, ⟨0, 0⟩, 0, 0, 0, 0, 0, 0⟩], 1⟩

/-- A candidate of amplitude 1 whose delay and phase match `cellC2`. -/
def reqC2 : AddArrReq := ⟨1, 1, 0, ⟨0, 0⟩, 0, 0, 0, 0, 0, 0⟩

/-- A one-slot cell at capacity, for concrete evaluations of eviction. -/
def cellC3 : ArrCell := ⟨[⟨1, 0, ⟨0, 0⟩, 0, 0, 0, 0, 0, 0⟩], 1⟩

/-- A weak candidate (amplitude 1/2 below the stored 1) whose phase differs
so the pair test fails. -/
def reqC3drop : AddArrReq := ⟨1 / 2, 1, 1, ⟨0, 0⟩, 0, 0, 0, 0, 0, 0⟩

/-- A strong candidate (amplitude 2 above the stored 1) whose phase differs
so the pair test fails. -/
def reqC3take : AddArrReq := ⟨2, 1, 1, ⟨0, 0⟩, 0, 0, 0, 0, 0, 0⟩

/-- 2D vector over ℚ (`vec2`): `.x` is range r, `.y` is depth z. -/
structure Vec2 where
  x : ℚ
  y : ℚ
deriving DecidableEq, Inhabited

def Vec2.sub (a b : Vec2) : Vec2 := ⟨a.x - b.x, a.y - b.y⟩

def dot2 (a b : Vec2) : ℚ := a.x * b.x + a.y * b.y

/-- 3D vector over ℚ (`vec3`). -/
structure Vec3 where
  x : ℚ
  y : ℚ
  z : ℚ
deriving DecidableEq, Inhabited

/-- src/src/trace.hpp `Distances` (2D): signed normal distances from the ray
position to the top and bottom boundary, using outward normals:
`DistTop = -dot(Topn, rayx - Topx); DistBot = -dot(Botn, rayx - Botx)`. -/
def Distances2D (rayx Topx Botx Topn Botn : Vec2) : ℚ × ℚ :=
  (-(dot2 Topn (Vec2.sub rayx Topx)), -(dot2 Botn (Vec2.sub rayx Botx)))

/-- Job indices of a `RayInitInfo`. -/
structure JobIdx where
  isz : ℤ
  isx : ℤ
  isy : ℤ
  ialpha : ℤ
  ibeta : ℤ
deriving DecidableEq, Inhabited

/-- Sizes of the source / launch-angle tables. -/
structure JobBounds where
  NSz : ℤ
  NSx : ℤ
  NSy : ℤ
  Nalpha : ℤ
  Nbeta : ℤ
deriving DecidableEq, Inhabited

/-- The index validation at the top of `RayInit` (negated): the job is valid
iff `isz` and `ialpha` are in range and, for an O3D run, so are `isx`, `isy`
and `ibeta`. -/
def validJobIndices (o3d : Bool) (j : JobIdx) (b : JobBounds) : Bool :=
  !(decide (j.isz < 0) || decide (b.NSz ≤ j.isz)
    || decide (j.ialpha < 0) || decide (b.Nalpha ≤ j.ialpha)
    || (o3d && (decide (j.isx < 0) || decide (b.NSx ≤ j.isx)
        || decide (j.isy < 0) || decide (b.NSy ≤ j.isy)
        || decide (j.ibeta < 0) || decide (b.Nbeta ≤ j.ibeta))))

/-- Outcome of `RayInit`: `fatal` models `bail()` (process abort on invalid
indices), `failure` the `return false` when the source is on or outside a
boundary, `success` the `return true`. -/
inductive RayInitResult where
  | fatal : RayInitResult
  | failure : RayInitResult
  | success : RayInitResult
deriving DecidableEq

/-- src/src/trace.hpp `RayInit`, reduced to its decision structure.  The
sound-speed, beam-pattern and boundary-segment lookups are external
collaborators (step.hpp / ssp / GetBdrySeg are not part of the core under
study); what they produce enters here as the source position `xs` (the
initial ray position `point0.x`) and the located boundary points/normals
`Topx, Botx, Topn, Botn` from which `Distances` computes
`DistBegTop, DistBegBot`. -/
def RayInit (o3d : Bool) (j : JobIdx) (b : JobBounds)
    (xs Topx Botx Topn Botn : Vec2) : RayInitResult :=
  if validJobIndices o3d j b = false then
    RayInitResult.fatal
  else
    let d := Distances2D xs Topx Botx Topn Botn
    if d.1 ≤ 0 ∨ d.2 ≤ 0 then RayInitResult.failure
    else RayInitResult.success

/-- The fields of a 2D ray point (`rayPt<false>`) read by `RayTerminate`:
position, tangent/slowness, amplitude. -/
structure RayPt2 where
  x : Vec2
  t : Vec2
  Amp : ℚ
deriving DecidableEq, Inhabited

/-- Result of `RayTerminate`: the returned bool, the value written to the
`Nsteps` reference (`none` when the function returns false and leaves it
unchanged), whether the insufficient-storage warning was printed, and the
updated `DistBegTop`/`DistBegBot` references. -/
structure TermResult where
  stop : Bool
  Nsteps : Option ℤ
  warned : Bool
  DistBegTop : ℚ
  DistBegBot : ℚ
deriving DecidableEq

/-- src/src/trace.hpp `RayTerminate`, `O3D = false` (pure 2D) branch:
`leftbox` from the beam box, `escapedboundaries` from the four signed
distances, `lostenergy` from the 0.005 amplitude threshold; `backward` is
hard-coded false in 2D (LP comment: commented out for 2D), and
`escaped0bdry`/`escapedNbdry` are false in 2D, so a predicate stop always
records `Nsteps = is + 1`; the step-budget check records `Nsteps = is` with
the storage warning. -/
def RayTerminate2D (point : RayPt2) (is : ℤ)
    (DistBegTop DistBegBot DistEndTop DistEndBot : ℚ)
    (BoxR BoxZ : ℚ) (MaxN : ℤ) : TermResult :=
  let leftbox := decide (|point.x.x| > BoxR) || decide (|point.x.y| > BoxZ)
  let escapedboundaries :=
    (decide (DistBegTop < 0) && decide (DistEndTop < 0))
      || (decide (DistBegBot < 0) && decide (DistEndBot < 0))
  let lostenergy := decide (point.Amp < 1 / 200)
  let backward := false
  if leftbox || lostenergy || escapedboundaries || backward then
    ⟨true, some (is + 1), false, DistBegTop, DistBegBot⟩
  else if MaxN - 3 ≤ is then
    ⟨true, some is, true, DistBegTop, DistBegBot⟩
  else
    ⟨false, none, false, DistEndTop, DistEndBot⟩

/-- src/src/trace.hpp `RayTerminate`, `O3D = true` branch, covering both
2D-in-3D (`r3d = false`) and full 3D (`r3d = true`).  `x o` is the
ocean-frame position `RayToOceanX(point.x, org)`; the eight `bd`/`td`
parameters are the boundary-extent corner coordinates
`bdinfo->bot.bd[0].x.x` etc. read by the escape tests.  `backward` tests
`point.t.x < 0` only when `!R3D`.  On a predicate stop, an escape through
the index-0 edge records `Nsteps = is`, every other predicate stop records
`Nsteps = is + 1`; the step-budget check records `Nsteps = is` and warns.
`toomanysmallsteps` is computed by the source but unused in the stop
condition. -/
def RayTerminate3D (r3d : Bool) (xo : Vec3) (t : Vec3) (Amp : ℚ)
    (is iSmallStepCtr : ℤ)
    (DistBegTop DistBegBot DistEndTop DistEndBot : ℚ)
    (xs : Vec3) (BoxX BoxY BoxZ : ℚ)
    (bd0x td0x bd0y td0y bdNx tdNx bdNy tdNy : ℚ) (MaxN : ℤ) : TermResult :=
  let leftbox := decide (|xo.x - xs.x| > BoxX) || decide (|xo.y - xs.y| > BoxY)
    || decide (|xo.z - xs.z| > BoxZ)
  let escaped0bdry := decide (xo.x < max bd0x td0x)
    || decide (xo.y < max bd0y td0y)
  let escapedNbdry := decide (xo.x > max bdNx tdNx)
    || decide (xo.y > max bdNy tdNy)
  let escapedboundaries := escaped0bdry || escapedNbdry
  let _toomanysmallsteps := decide (iSmallStepCtr > 50)
  let lostenergy := decide (Amp < 1 / 200)
  let backward := if r3d then false else decide (t.x < 0)
  if leftbox || lostenergy || escapedboundaries || backward then
    if escaped0bdry then ⟨true, some is, false, DistBegTop, DistBegBot⟩
    else ⟨true, some (is + 1), false, DistBegTop, DistBegBot⟩
  else if MaxN - 3 ≤ is then
    ⟨true, some is, true, DistBegTop, DistBegBot⟩
  else
    ⟨false, none, false, DistEndTop, DistEndBot⟩

/-- src/src/main.hpp `GetJobIndices`: decode a job index from the shared
atomic counter into `(isrc, ialpha, shouldContinue)`.  Job indices are the
values of the monotonically increasing shared counter starting at 0, hence ℕ.
`iSingle alpha >= 0` selects the fixed-launch-angle mode. -/
def GetJobIndices (job : ℕ) (iSingleAlpha : ℤ) (Nalpha NSz : ℕ) :
    ℕ × ℕ × Bool :=
  if 0 ≤ iSingleAlpha then
    (job, iSingleAlpha.toNat, decide (job < NSz))
  else
    (job / Nalpha, job % Nalpha, decide (job / Nalpha < NSz))

theorem getD_set_self_arr (l : List Arrival) (n : ℕ) (a d : Arrival)
    (h : n < l.length) : (l.set n a).getD n d = a := by
  rw [List.getD_eq_getElem?_getD, List.getElem?_set_self]
  · rfl
  · simpa using h

theorem getD_mem_arr (l : List Arrival) (n : ℕ) (d : Arrival)
    (h : n < l.length) : l.getD n d ∈ l := by
  rw [List.getD_eq_getElem?_getD, List.getElem?_eq_getElem h]
  exact List.getElem_mem _

theorem sq_abs_toComplex (z : Cpx) :
    (Complex.abs z.toComplex) ^ 2 = ((Cpx.normSq z : ℚ) : ℝ) := by
  rw [Complex.sq_abs]
  simp only [Cpx.toComplex, Complex.normSq_mk, Cpx.normSq]
  push_cast
  ring

/-- The ℚ-level encoding of the delay closeness test is exactly the
real-valued comparison `omega * abs(dz) < PhaseTol` of the source. -/
theorem delayClose_iff_abs (omega : ℚ) (dz : Cpx) :
    delayClose omega dz = true ↔
      (omega : ℝ) * Complex.abs dz.toComplex < ((PhaseTol : ℚ) : ℝ) := by
  have habs : (0 : ℝ) ≤ Complex.abs dz.toComplex := AbsoluteValue.nonneg _ _
  have hsq := sq_abs_toComplex dz
  have htolpos : (0 : ℝ) < ((PhaseTol : ℚ) : ℝ) := by norm_num [PhaseTol]
  simp only [delayClose, Bool.or_eq_true, decide_eq_true_eq]
  constructor
  · rintro (h | h)
    · have homega : (omega : ℝ) ≤ 0 := by exact_mod_cast h
      nlinarith
    · have h' : ((omega : ℝ)) ^ 2 * ((Cpx.normSq dz : ℚ) : ℝ) <
          ((PhaseTol : ℚ) : ℝ) ^ 2 := by exact_mod_cast h
      rw [← hsq] at h'
      by_cases homega : omega ≤ 0
      · have homega' : (omega : ℝ) ≤ 0 := by exact_mod_cast homega
        nlinarith
      · push_neg at homega
        have homega' : (0 : ℝ) < (omega : ℝ) := by exact_mod_cast homega
        have hlt : ((omega : ℝ) * Complex.abs dz.toComplex) ^ 2 <
            ((PhaseTol : ℚ) : ℝ) ^ 2 := by nlinarith
        exact lt_of_pow_lt_pow_left₀ 2 (le_of_lt htolpos) hlt
  · intro h
    by_cases homega : omega ≤ 0
    · exact Or.inl homega
    · right
      push_neg at homega
      have homega' : (0 : ℝ) < (omega : ℝ) := by exact_mod_cast homega
      have h2 : ((omega : ℝ) * Complex.abs dz.toComplex) ^ 2 <
          ((PhaseTol : ℚ) : ℝ) ^ 2 :=
        pow_lt_pow_left₀ h (by positivity) (by norm_num)
      rw [mul_pow, hsq] at h2
      exact_mod_cast h2

/-- Full characterization of the weakest-arrival scan: the returned value is
the minimum of the candidate amplitude and all stored amplitudes, and the
returned index (when present) points at a stored arrival attaining it that
is strictly weaker than the candidate. -/
theorem weakestLoop_spec (l : List Arrival) (w : ℚ) (acc : Option ℕ) (n : ℕ) :
    (weakestLoop l w acc n).1 ≤ w
    ∧ (∀ b ∈ l, (weakestLoop l w acc n).1 ≤ b.a)
    ∧ (((weakestLoop l w acc n).1 = w ∧ (weakestLoop l w acc n).2 = acc)
       ∨ ∃ k, k < l.length ∧ (weakestLoop l w acc n).2 = some (n + k)
           ∧ (l.getD k default).a = (weakestLoop l w acc n).1
           ∧ (weakestLoop l w acc n).1 < w) := by
  induction l generalizing w acc n with
  | nil => simp [weakestLoop]
  | cons a rest ih =>
    by_cases h : a.a < w
    · simp only [weakestLoop, if_pos h]
      obtain ⟨ih1, ih2, ih3⟩ := ih a.a (some n) (n + 1)
      refine ⟨le_trans ih1 (le_of_lt h), ?_, ?_⟩
      · intro b hb
        rcases List.mem_cons.mp hb with rfl | hb'
        · exact ih1
        · exact ih2 b hb'
      · rcases ih3 with ⟨he, hacc⟩ | ⟨k, hk, hsome, hval, hlt⟩
        · right
          refine ⟨0, by simp, ?_, ?_, ?_⟩
          · simpa using hacc
          · simpa [List.getD] using he.symm
          · rw [he]; exact h
        · right
          refine ⟨k + 1, by simpa using Nat.succ_lt_succ hk, ?_, ?_, ?_⟩
          · rw [hsome]; congr 1; omega
          · simpa [List.getD] using hval
          · exact lt_trans hlt h
    · simp only [weakestLoop, if_neg h]
      obtain ⟨ih1, ih2, ih3⟩ := ih w acc (n + 1)
      refine ⟨ih1, ?_, ?_⟩
      · intro b hb
        rcases List.mem_cons.mp hb with rfl | hb'
        · exact le_trans ih1 (not_lt.mp h)
        · exact ih2 b hb'
      · rcases ih3 with ⟨he, hacc⟩ | ⟨k, hk, hsome, hval, hlt⟩
        · exact Or.inl ⟨he, hacc⟩
        · right
          refine ⟨k + 1, by simpa using Nat.succ_lt_succ hk, ?_, ?_, ?_⟩
          · rw [hsome]; congr 1; omega
          · simpa [List.getD] using hval
          · exact hlt

theorem addArr_arr_length (b : Bool) (m : ℕ) (r : AddArrReq) (c : ArrCell) :
    (AddArr b m r c).arr.length = c.arr.length := by
  cases b with
  | false =>
    by_cases h : m ≤ c.nArr <;> simp [AddArr, h]
  | true =>
    by_cases hp : IsSecondStepOfPair r.omega r.Phase r.delay c.arr c.nArr
        = false
    · by_cases h : m ≤ c.nArr
      · rcases hw : (weakestLoop c.arr r.Amp none 0).2 with _ | i <;>
          simp [AddArr, hp, h, hw]
      · simp [AddArr, hp, h]
    · simp [AddArr, hp]

theorem addArr_atomic_nArr (m : ℕ) (r : AddArrReq) (c : ArrCell) :
    (AddArr false m r c).nArr = c.nArr + 1 := by
  by_cases h : m ≤ c.nArr <;> simp [AddArr, h]

theorem addArr_merge_nArr_le (m : ℕ) (r : AddArrReq) (c : ArrCell)
    (h : c.nArr ≤ m) : (AddArr true m r c).nArr ≤ m := by
  by_cases hp : IsSecondStepOfPair r.omega r.Phase r.delay c.arr c.nArr
      = false
  · by_cases hc : m ≤ c.nArr
    · rcases hw : (weakestLoop c.arr r.Amp none 0).2 with _ | i <;>
        simp [AddArr, hp, hc, hw, h]
    · simp only [AddArr, if_pos rfl, hp, if_true, if_neg hc]
      omega
  · simp [AddArr, hp, h]

theorem runAddArr_nil (b : Bool) (m : ℕ) (c : ArrCell) :
    runAddArr b m [] c = c := rfl

theorem runAddArr_cons (b : Bool) (m : ℕ) (r : AddArrReq)
    (rest : List AddArrReq) (c : ArrCell) :
    runAddArr b m (r :: rest) c = runAddArr b m rest (AddArr b m r c) := rfl

theorem runAddArr_merge_nArr_le (m : ℕ) (reqs : List AddArrReq) (c : ArrCell)
    (h : c.nArr ≤ m) : (runAddArr true m reqs c).nArr ≤ m := by
  induction reqs generalizing c with
  | nil => simpa [runAddArr] using h
  | cons r rest ih =>
    rw [runAddArr_cons]
    exact ih _ (addArr_merge_nArr_le m r c h)

theorem runAddArr_atomic_nArr (m : ℕ) (reqs : List AddArrReq) (c : ArrCell) :
    (runAddArr false m reqs c).nArr = c.nArr + reqs.length := by
  induction reqs generalizing c with
  | nil => simp [runAddArr]
  | cons r rest ih =>
    rw [runAddArr_cons, ih, addArr_atomic_nArr]
    simp
    omega

theorem runAddArr_arr_length (b : Bool) (m : ℕ) (reqs : List AddArrReq)
    (c : ArrCell) : (runAddArr b m reqs c).arr.length = c.arr.length := by
  induction reqs generalizing c with
  | nil => rfl
  | cons r rest ih =>
    rw [runAddArr_cons, ih, addArr_arr_length]

/-- C1 (amended): starting from the zero-initialized cell, after any sequence
of AddArr calls, in merge-enabled (single-worker) mode the stored count
satisfies `NArr ≤ MaxNArr`; in merge-disabled (atomic-append) mode the
counter equals the total number of calls, which can exceed `MaxNArr`, while
the slot storage itself stays at exactly `MaxNArr` records in both modes (so
no more than `MaxNArr` arrivals are ever stored per cell). -/
theorem addArr_capacity_invariants (m : ℕ) (reqs : List AddArrReq) :
    (runAddArr true m reqs (InitArrivalsModeCell m)).nArr ≤ m
    ∧ (runAddArr true m reqs (InitArrivalsModeCell m)).arr.length = m
    ∧ (runAddArr false m reqs (InitArrivalsModeCell m)).nArr = reqs.length
    ∧ (runAddArr false m reqs (InitArrivalsModeCell m)).arr.length = m := by
  refine ⟨?_, ?_, ?_, ?_⟩
  · exact runAddArr_merge_nArr_le m reqs _ (by simp [InitArrivalsModeCell])
  · rw [runAddArr_arr_length]; simp [InitArrivalsModeCell]
  · rw [runAddArr_atomic_nArr]; simp [InitArrivalsModeCell]
  · rw [runAddArr_arr_length]; simp [InitArrivalsModeCell]

/-- C1 counterexample: in the merge-disabled (atomic-append) policy the
stored per-cell count `NArr` exceeds `MaxNArr`: with `MaxNArr = 1`, two
AddArr calls on the zero-initialized cell leave the counter at 2. -/
theorem atomic_addArr_count_exceeds_capacity :
    (runAddArr false 1 [zeroReq, zeroReq] (InitArrivalsModeCell 1)).nArr = 2
    ∧ ¬((runAddArr false 1 [zeroReq, zeroReq]
        (InitArrivalsModeCell 1)).nArr ≤ 1) := by
  decide

/-- C2 (confirmed): in single-worker (merge-enabled) mode a candidate merges
with the most recently stored arrival iff the cell is non-empty, omega times
the modulus of the delay difference is below 0.05, and the phase difference
is below 0.05; on a merge the amplitude becomes the sum of the two input
amplitudes, the delay becomes the amplitude-weighted average of the two
delays — it lies strictly inside the segment between them since the weight
is in (0,1) — and the cell count is unchanged. -/
theorem addArr_merge_characterization (m : ℕ) (r : AddArrReq) (c : ArrCell)
    (hlen : c.arr.length = m) (hNtm : c.nArr ≤ m)
    (hprev : 0 < (c.arr.getD (c.nArr - 1) default).a) (hAmp : 0 < r.Amp) :
    (IsSecondStepOfPair r.omega r.Phase r.delay c.arr c.nArr = true ↔
      (1 ≤ c.nArr
       ∧ (r.omega : ℝ) * Complex.abs
           (Cpx.sub r.delay (c.arr.getD (c.nArr - 1) default).delay).toComplex
           < ((PhaseTol : ℚ) : ℝ)
       ∧ |(c.arr.getD (c.nArr - 1) default).Phase - r.Phase| < PhaseTol))
    ∧ (IsSecondStepOfPair r.omega r.Phase r.delay c.arr c.nArr = true →
        (AddArr true m r c).nArr = c.nArr
        ∧ ((AddArr true m r c).arr.getD (c.nArr - 1) default).a
            = (c.arr.getD (c.nArr - 1) default).a + r.Amp
        ∧ ((AddArr true m r c).arr.getD (c.nArr - 1) default).delay
            = Cpx.add (c.arr.getD (c.nArr - 1) default).delay
                (Cpx.smul
                  (r.Amp / ((c.arr.getD (c.nArr - 1) default).a + r.Amp))
                  (Cpx.sub r.delay (c.arr.getD (c.nArr - 1) default).delay))
        ∧ 0 < r.Amp / ((c.arr.getD (c.nArr - 1) default).a + r.Amp)
        ∧ r.Amp / ((c.arr.getD (c.nArr - 1) default).a + r.Amp) < 1) := by
  constructor
  · simp only [IsSecondStepOfPair, Bool.and_eq_true, decide_eq_true_eq]
    rw [delayClose_iff_abs]
    tauto
  · intro hc
    have hNt : 1 ≤ c.nArr := by
      have := hc
      simp only [IsSecondStepOfPair, Bool.and_eq_true, decide_eq_true_eq]
        at this
      exact this.1.1
    have hidx : c.nArr - 1 < c.arr.length := by omega
    have hres : AddArr true m r c
        = ⟨c.arr.set (c.nArr - 1)
            (mergeArrival (c.arr.getD (c.nArr - 1) default) r), c.nArr⟩ := by
      simp [AddArr, hc]
    have hget : (AddArr true m r c).arr.getD (c.nArr - 1) default
        = mergeArrival (c.arr.getD (c.nArr - 1) default) r := by
      rw [hres]
      exact getD_set_self_arr _ _ _ _ hidx
    have hT : 0 < (c.arr.getD (c.nArr - 1) default).a + r.Amp := by linarith
    have hTne : (c.arr.getD (c.nArr - 1) default).a + r.Amp ≠ 0 :=
      ne_of_gt hT
    refine ⟨by rw [hres], ?_, ?_, ?_, ?_⟩
    · rw [hget]
      simp [mergeArrival]
    · rw [hget]
      generalize c.arr.getD (c.nArr - 1) default = P at hT hTne ⊢
      simp only [mergeArrival, Cpx.add, Cpx.smul, Cpx.sub, Cpx.mk.injEq]
      constructor <;> (field_simp; ring)
    · positivity
    · rw [div_lt_one hT]
      linarith

/-- Witness for C2 at a concrete merging input: one stored arrival of
amplitude 1, matching candidate of amplitude 1; the count stays 1 and the
merged amplitude is 2. -/
theorem addArr_merge_characterization_witness :
    (AddArr true 1 reqC2 cellC2).nArr = 1
    ∧ ((AddArr true 1 reqC2 cellC2).arr.getD 0 default).a = 2 := by
  have h := (addArr_merge_characterization 1 reqC2 cellC2 rfl (by decide)
      (by simp [cellC2, List.getD_cons_zero])
      (by norm_num [reqC2])).2
      (by simp only [IsSecondStepOfPair, delayClose, cellC2, reqC2, Cpx.sub,
            Cpx.normSq, PhaseTol, Bool.and_eq_true, Bool.or_eq_true,
            decide_eq_true_eq, List.getD_cons_zero]
          norm_num)
  refine ⟨h.1, ?_⟩
  have h2 := h.2.1
  norm_num [cellC2, reqC2, List.getD_cons_zero] at h2 ⊢
  exact h2

/-- C3 (confirmed): in merge-enabled mode, when the candidate does not pair
and the cell is at capacity, AddArr replaces a stored arrival of minimal
amplitude exactly when the candidate amplitude strictly exceeds that
minimum; otherwise it returns with the cell (slots and count) unchanged. -/
theorem addArr_evict_weakest (m : ℕ) (r : AddArrReq) (c : ArrCell)
    (hcond : IsSecondStepOfPair r.omega r.Phase r.delay c.arr c.nArr = false)
    (hcap : m ≤ c.nArr) :
    ((∀ b ∈ c.arr, r.Amp ≤ b.a) → AddArr true m r c = c)
    ∧ ((∃ b ∈ c.arr, b.a < r.Amp) →
        (AddArr true m r c).nArr = c.nArr
        ∧ ∃ k, k < c.arr.length
            ∧ (∀ b ∈ c.arr, (c.arr.getD k default).a ≤ b.a)
            ∧ (c.arr.getD k default).a < r.Amp
            ∧ (AddArr true m r c).arr = c.arr.set k r.toArrival) := by
  obtain ⟨hw1, hw2, hw3⟩ := weakestLoop_spec c.arr r.Amp none 0
  constructor
  · intro hall
    have hnone : (weakestLoop c.arr r.Amp none 0).2 = none := by
      rcases hw3 with ⟨_, h2⟩ | ⟨k, hk, _, hval, hlt⟩
      · exact h2
      · exfalso
        have hmem := getD_mem_arr c.arr k default hk
        have h1 := hall _ hmem
        rw [hval] at h1
        linarith
    simp [AddArr, hcond, hcap, hnone]
  · rintro ⟨b0, hb0mem, hb0⟩
    have hsome : ∃ k, k < c.arr.length
        ∧ (weakestLoop c.arr r.Amp none 0).2 = some (0 + k)
        ∧ (c.arr.getD k default).a = (weakestLoop c.arr r.Amp none 0).1
        ∧ (weakestLoop c.arr r.Amp none 0).1 < r.Amp := by
      rcases hw3 with ⟨he, _⟩ | h
      · exfalso
        have h1 := hw2 b0 hb0mem
        rw [he] at h1
        linarith
      · exact h
    obtain ⟨k, hk, hsm, hval, hlt⟩ := hsome
    have hres : AddArr true m r c = ⟨c.arr.set k r.toArrival, c.nArr⟩ := by
      simp [AddArr, hcond, hcap, hsm]
    rw [hres]
    refine ⟨rfl, k, hk, ?_, ?_, rfl⟩
    · intro b hb
      rw [hval]
      exact hw2 b hb
    · rw [hval]
      exact hlt

/-- Witness for C3 at concrete inputs: a weak candidate is dropped with the
cell unchanged; a strong candidate keeps the count at 1 (eviction). -/
theorem addArr_evict_weakest_witness :
    AddArr true 1 reqC3drop cellC3 = cellC3
    ∧ (AddArr true 1 reqC3take cellC3).nArr = 1 := by
  have hpair3d : IsSecondStepOfPair reqC3drop.omega reqC3drop.Phase
      reqC3drop.delay cellC3.arr cellC3.nArr = false := by
    rw [Bool.eq_false_iff]
    intro h
    simp only [IsSecondStepOfPair, cellC3, reqC3drop, PhaseTol,
      Bool.and_eq_true, decide_eq_true_eq, List.getD_cons_zero] at h
    norm_num at h
  have hpair3t : IsSecondStepOfPair reqC3take.omega reqC3take.Phase
      reqC3take.delay cellC3.arr cellC3.nArr = false := by
    rw [Bool.eq_false_iff]
    intro h
    simp only [IsSecondStepOfPair, cellC3, reqC3take, PhaseTol,
      Bool.and_eq_true, decide_eq_true_eq, List.getD_cons_zero] at h
    norm_num at h
  constructor
  · refine (addArr_evict_weakest 1 reqC3drop cellC3 hpair3d (by decide)).1 ?_
    intro b hb
    simp only [cellC3, List.mem_singleton] at hb
    subst hb
    norm_num [reqC3drop]
  · refine ((addArr_evict_weakest 1 reqC3take cellC3 hpair3t
      (by decide)).2 ?_).1
    refine ⟨⟨1, 0, ⟨0, 0⟩, 0, 0, 0, 0, 0, 0⟩, ?_, ?_⟩
    · simp [cellC3]
    · norm_num [reqC3take]

/-- C10 (confirmed): in the merge-disabled (atomic-append) branch the counter
is always incremented; when the reserved index is below MaxNArr the write
lands exactly in that reserved slot, and when it is at or beyond MaxNArr the
function returns with every stored record unchanged (counter already
incremented). -/
theorem addArr_atomic_spec (m : ℕ) (r : AddArrReq) (c : ArrCell) :
    (AddArr false m r c).nArr = c.nArr + 1
    ∧ (c.nArr < m → (AddArr false m r c).arr = c.arr.set c.nArr r.toArrival)
    ∧ (m ≤ c.nArr → (AddArr false m r c).arr = c.arr) := by
  refine ⟨addArr_atomic_nArr m r c, ?_, ?_⟩
  · intro h
    simp [AddArr, not_le.mpr h]
  · intro h
    simp [AddArr, h]

/-- Witness for C10 at concrete inputs: a write into the reserved slot of a
one-slot cell, and a discarded write on a zero-capacity cell. -/
theorem addArr_atomic_spec_witness :
    (AddArr false 1 zeroReq (InitArrivalsModeCell 1)).nArr = 1
    ∧ (AddArr false 1 zeroReq (InitArrivalsModeCell 1)).arr
        = (InitArrivalsModeCell 1).arr.set 0 zeroReq.toArrival
    ∧ (AddArr false 0 zeroReq (InitArrivalsModeCell 0)).arr
        = (InitArrivalsModeCell 0).arr := by
  refine ⟨?_, ?_, ?_⟩
  · exact (addArr_atomic_spec 1 zeroReq (InitArrivalsModeCell 1)).1
  · exact (addArr_atomic_spec 1 zeroReq (InitArrivalsModeCell 1)).2.1
      (by decide)
  · exact (addArr_atomic_spec 0 zeroReq (InitArrivalsModeCell 0)).2.2
      (by decide)

theorem backward_eq (r3d : Bool) (tx : ℚ) :
    (if r3d then false else decide (tx < 0)) = decide (r3d = false ∧ tx < 0) := by
  cases r3d <;> simp

/-- Evaluation of the 2D RayTerminate in terms of the propositional stopping
predicates. -/
theorem rayTerminate2D_eq (pt : RayPt2) (is : ℤ)
    (dBT dBB dET dEB BoxR BoxZ : ℚ) (MaxN : ℤ) :
    RayTerminate2D pt is dBT dBB dET dEB BoxR BoxZ MaxN
      = if (|pt.x.x| > BoxR ∨ |pt.x.y| > BoxZ)
           ∨ pt.Amp < 1 / 200
           ∨ ((dBT < 0 ∧ dET < 0) ∨ (dBB < 0 ∧ dEB < 0)) then
          ⟨true, some (is + 1), false, dBT, dBB⟩
        else if MaxN - 3 ≤ is then ⟨true, some is, true, dBT, dBB⟩
        else ⟨false, none, false, dET, dEB⟩ := by
  simp only [RayTerminate2D, Bool.or_false, ← Bool.decide_and,
    ← Bool.decide_or, decide_eq_true_eq]
  exact if_congr (by tauto) rfl rfl

/-- Evaluation of the O3D RayTerminate in terms of the propositional stopping
predicates. -/
theorem rayTerminate3D_eq (r3d : Bool) (xo t : Vec3) (Amp : ℚ)
    (is ictr : ℤ) (dBT dBB dET dEB : ℚ) (xs : Vec3)
    (BX BY BZ b0x t0x b0y t0y bNx tNx bNy tNy : ℚ) (MaxN : ℤ) :
    RayTerminate3D r3d xo t Amp is ictr dBT dBB dET dEB xs BX BY BZ
        b0x t0x b0y t0y bNx tNx bNy tNy MaxN
      = if (|xo.x - xs.x| > BX ∨ |xo.y - xs.y| > BY ∨ |xo.z - xs.z| > BZ)
           ∨ Amp < 1 / 200
           ∨ ((xo.x < max b0x t0x ∨ xo.y < max b0y t0y)
               ∨ (xo.x > max bNx tNx ∨ xo.y > max bNy tNy))
           ∨ (r3d = false ∧ t.x < 0) then
          if xo.x < max b0x t0x ∨ xo.y < max b0y t0y then
            ⟨true, some is, false, dBT, dBB⟩
          else ⟨true, some (is + 1), false, dBT, dBB⟩
        else if MaxN - 3 ≤ is then ⟨true, some is, true, dBT, dBB⟩
        else ⟨false, none, false, dET, dEB⟩ := by
  simp only [RayTerminate3D, backward_eq, ← Bool.decide_and,
    ← Bool.decide_or, decide_eq_true_eq]
  exact if_congr (by tauto) (if_congr (by tauto) rfl rfl) rfl

/-- C4 (confirmed): RayInit aborts (fatal) exactly on out-of-range job
indices; with valid indices it succeeds iff both signed normal boundary
distances of the source are strictly positive and reports a non-fatal
failure when either is non-positive (including a source exactly on a
boundary, where the distance is zero). -/
theorem rayInit_outcomes (o3d : Bool) (j : JobIdx) (b : JobBounds)
    (xs Topx Botx Topn Botn : Vec2) :
    (validJobIndices o3d j b = false →
      RayInit o3d j b xs Topx Botx Topn Botn = RayInitResult.fatal)
    ∧ (validJobIndices o3d j b = true →
        ((0 < (Distances2D xs Topx Botx Topn Botn).1 →
          0 < (Distances2D xs Topx Botx Topn Botn).2 →
          RayInit o3d j b xs Topx Botx Topn Botn = RayInitResult.success)
         ∧ ((Distances2D xs Topx Botx Topn Botn).1 ≤ 0
              ∨ (Distances2D xs Topx Botx Topn Botn).2 ≤ 0 →
            RayInit o3d j b xs Topx Botx Topn Botn
              = RayInitResult.failure))) := by
  constructor
  · intro h
    simp [RayInit, h]
  · intro h
    constructor
    · intro h1 h2
      have hne : ¬((Distances2D xs Topx Botx Topn Botn).1 ≤ 0
          ∨ (Distances2D xs Topx Botx Topn Botn).2 ≤ 0) := by
        push_neg
        exact ⟨h1, h2⟩
      simp [RayInit, h, hne]
    · intro hd
      simp [RayInit, h, hd]

/-- Witness for C4: a source at depth 50 between a flat top at z = 0 and a
flat bottom at z = 100 succeeds; the same source moved onto the top boundary
fails; an out-of-range source index is fatal. -/
theorem rayInit_outcomes_witness :
    RayInit false ⟨0, 0, 0, 0, 0⟩ ⟨1, 1, 1, 1, 1⟩ ⟨0, 50⟩ ⟨0, 0⟩ ⟨0, 100⟩
        ⟨0, -1⟩ ⟨0, 1⟩ = RayInitResult.success
    ∧ RayInit false ⟨0, 0, 0, 0, 0⟩ ⟨1, 1, 1, 1, 1⟩ ⟨0, 0⟩ ⟨0, 0⟩ ⟨0, 100⟩
        ⟨0, -1⟩ ⟨0, 1⟩ = RayInitResult.failure
    ∧ RayInit false ⟨2, 0, 0, 0, 0⟩ ⟨1, 1, 1, 1, 1⟩ ⟨0, 50⟩ ⟨0, 0⟩ ⟨0, 100⟩
        ⟨0, -1⟩ ⟨0, 1⟩ = RayInitResult.fatal := by
  refine ⟨?_, ?_, ?_⟩
  · exact ((rayInit_outcomes false ⟨0, 0, 0, 0, 0⟩ ⟨1, 1, 1, 1, 1⟩ ⟨0, 50⟩
      ⟨0, 0⟩ ⟨0, 100⟩ ⟨0, -1⟩ ⟨0, 1⟩).2 (by decide)).1
      (by norm_num [Distances2D, dot2, Vec2.sub])
      (by norm_num [Distances2D, dot2, Vec2.sub])
  · exact ((rayInit_outcomes false ⟨0, 0, 0, 0, 0⟩ ⟨1, 1, 1, 1, 1⟩ ⟨0, 0⟩
      ⟨0, 0⟩ ⟨0, 100⟩ ⟨0, -1⟩ ⟨0, 1⟩).2 (by decide)).2
      (Or.inl (by norm_num [Distances2D, dot2, Vec2.sub]))
  · exact (rayInit_outcomes false ⟨2, 0, 0, 0, 0⟩ ⟨1, 1, 1, 1, 1⟩ ⟨0, 50⟩
      ⟨0, 0⟩ ⟨0, 100⟩ ⟨0, -1⟩ ⟨0, 1⟩).1 (by decide)

/-- C5 (confirmed): with the box, escape, backward and step-budget stopping
predicates all false, RayTerminate stops exactly when the amplitude is
strictly below 0.005, in the 2D branch and in the O3D branch (both modes). -/
theorem rayTerminate_lostenergy_iff :
    (∀ (pt : RayPt2) (is : ℤ) (dBT dBB dET dEB BoxR BoxZ : ℚ) (MaxN : ℤ),
      |pt.x.x| ≤ BoxR → |pt.x.y| ≤ BoxZ →
      ¬((dBT < 0 ∧ dET < 0) ∨ (dBB < 0 ∧ dEB < 0)) →
      is < MaxN - 3 →
      ((RayTerminate2D pt is dBT dBB dET dEB BoxR BoxZ MaxN).stop = true
        ↔ pt.Amp < 1 / 200))
    ∧ (∀ (r3d : Bool) (xo t : Vec3) (Amp : ℚ) (is ictr : ℤ)
        (dBT dBB dET dEB : ℚ) (xs : Vec3)
        (BX BY BZ b0x t0x b0y t0y bNx tNx bNy tNy : ℚ) (MaxN : ℤ),
      |xo.x - xs.x| ≤ BX → |xo.y - xs.y| ≤ BY → |xo.z - xs.z| ≤ BZ →
      max b0x t0x ≤ xo.x → max b0y t0y ≤ xo.y →
      xo.x ≤ max bNx tNx → xo.y ≤ max bNy tNy →
      (r3d = true ∨ 0 ≤ t.x) →
      is < MaxN - 3 →
      ((RayTerminate3D r3d xo t Amp is ictr dBT dBB dET dEB xs BX BY BZ
          b0x t0x b0y t0y bNx tNx bNy tNy MaxN).stop = true
        ↔ Amp < 1 / 200)) := by
  constructor
  · intro pt is dBT dBB dET dEB BoxR BoxZ MaxN hbx hbz hesc hbud
    rw [rayTerminate2D_eq]
    by_cases hA : pt.Amp < 1 / 200
    · rw [if_pos (Or.inr (Or.inl hA))]
      simpa using hA
    · have hcond : ¬((|pt.x.x| > BoxR ∨ |pt.x.y| > BoxZ)
          ∨ pt.Amp < 1 / 200
          ∨ ((dBT < 0 ∧ dET < 0) ∨ (dBB < 0 ∧ dEB < 0))) := by
        rintro ((h | h) | h | h)
        · exact absurd h (not_lt.mpr hbx)
        · exact absurd h (not_lt.mpr hbz)
        · exact hA h
        · exact hesc h
      rw [if_neg hcond, if_neg (not_le.mpr hbud)]
      simpa using not_lt.mp hA
  · intro r3d xo t Amp is ictr dBT dBB dET dEB xs BX BY BZ b0x t0x b0y t0y
      bNx tNx bNy tNy MaxN h1 h2 h3 h4 h5 h6 h7 hback hbud
    rw [rayTerminate3D_eq]
    by_cases hA : Amp < 1 / 200
    · rw [if_pos (Or.inr (Or.inl hA))]
      split_ifs <;> simpa using hA
    · have hcond : ¬((|xo.x - xs.x| > BX ∨ |xo.y - xs.y| > BY
            ∨ |xo.z - xs.z| > BZ)
          ∨ Amp < 1 / 200
          ∨ ((xo.x < max b0x t0x ∨ xo.y < max b0y t0y)
              ∨ (xo.x > max bNx tNx ∨ xo.y > max bNy tNy))
          ∨ (r3d = false ∧ t.x < 0)) := by
        rintro ((h | h | h) | h | ((h | h) | (h | h)) | ⟨hr, ht⟩)
        · exact absurd h (not_lt.mpr h1)
        · exact absurd h (not_lt.mpr h2)
        · exact absurd h (not_lt.mpr h3)
        · exact hA h
        · exact absurd h (not_lt.mpr h4)
        · exact absurd h (not_lt.mpr h5)
        · exact absurd h (not_lt.mpr h6)
        · exact absurd h (not_lt.mpr h7)
        · rcases hback with hb | hb
          · rw [hr] at hb
            exact absurd hb (by simp)
          · exact absurd ht (not_lt.mpr hb)
      rw [if_neg hcond, if_neg (not_le.mpr hbud)]
      simpa using not_lt.mp hA

/-- Witness for C5: a 2D point of amplitude 0 stops and an O3D point of
amplitude 1 does not, all other predicates being false. -/
theorem rayTerminate_lostenergy_iff_witness :
    (RayTerminate2D ⟨⟨0, 0⟩, ⟨0, 0⟩, 0⟩ 0 1 1 1 1 1 1 10).stop = true
    ∧ (RayTerminate3D false ⟨0, 0, 0⟩ ⟨1, 0, 0⟩ 1 0 0 1 1 1 1 ⟨0, 0, 0⟩
        1 1 1 0 0 0 0 1 1 1 1 10).stop = false := by
  constructor
  · exact (rayTerminate_lostenergy_iff.1 ⟨⟨0, 0⟩, ⟨0, 0⟩, 0⟩ 0 1 1 1 1 1 1 10
      (by norm_num) (by norm_num) (by norm_num) (by norm_num)).mpr
      (by norm_num)
  · have h := rayTerminate_lostenergy_iff.2 false ⟨0, 0, 0⟩ ⟨1, 0, 0⟩ 1 0 0
      1 1 1 1 ⟨0, 0, 0⟩ 1 1 1 0 0 0 0 1 1 1 1 10
      (by norm_num) (by norm_num) (by norm_num) (by norm_num) (by norm_num)
      (by norm_num) (by norm_num) (Or.inr (by norm_num)) (by norm_num)
    rw [Bool.eq_false_iff]
    intro hs
    have hcontra := h.mp hs
    norm_num at hcontra

/-- C6 counterexample: in pure 2D a ray with negative horizontal slowness
component (t.x = -1 < 0) is not stopped by RayTerminate when every other
predicate is false, contradicting the claim that the backward test fires in
2D runs. -/
theorem rayTerminate2D_backward_not_stopped :
    (RayTerminate2D ⟨⟨0, 0⟩, ⟨-1, 0⟩, 1⟩ 0 1 1 1 1 1 1 10).stop = false
    ∧ ((⟨⟨0, 0⟩, ⟨-1, 0⟩, 1⟩ : RayPt2).t.x < 0) := by
  constructor
  · norm_num [RayTerminate2D]
  · norm_num

/-- C6 (amended): the travelling-backward stop fires only in 2D-in-3D mode
(O3D and not R3D): there any point with t.x < 0 stops the ray; in pure 2D
the backward test is hard-coded false, so the outcome of RayTerminate does
not depend on the tangent at all. -/
theorem rayTerminate_backward_only_2din3d :
    (∀ (xo t : Vec3) (Amp : ℚ) (is ictr : ℤ) (dBT dBB dET dEB : ℚ)
        (xs : Vec3) (BX BY BZ b0x t0x b0y t0y bNx tNx bNy tNy : ℚ)
        (MaxN : ℤ),
      t.x < 0 →
      (RayTerminate3D false xo t Amp is ictr dBT dBB dET dEB xs BX BY BZ
        b0x t0x b0y t0y bNx tNx bNy tNy MaxN).stop = true)
    ∧ (∀ (x t1 t2 : Vec2) (Amp : ℚ) (is : ℤ)
        (dBT dBB dET dEB BoxR BoxZ : ℚ) (MaxN : ℤ),
        RayTerminate2D ⟨x, t1, Amp⟩ is dBT dBB dET dEB BoxR BoxZ MaxN
          = RayTerminate2D ⟨x, t2, Amp⟩ is dBT dBB dET dEB BoxR BoxZ MaxN) := by
  constructor
  · intro xo t Amp is ictr dBT dBB dET dEB xs BX BY BZ b0x t0x b0y t0y
      bNx tNx bNy tNy MaxN ht
    rw [rayTerminate3D_eq]
    rw [if_pos (Or.inr (Or.inr (Or.inr ⟨rfl, ht⟩)))]
    split_ifs <;> rfl
  · intro x t1 t2 Amp is dBT dBB dET dEB BoxR BoxZ MaxN
    rfl

/-- Witness for C6 at a concrete 2D-in-3D input with t.x = -1. -/
theorem rayTerminate_backward_only_2din3d_witness :
    (RayTerminate3D false ⟨0, 0, 0⟩ ⟨-1, 0, 0⟩ 1 0 0 1 1 1 1 ⟨0, 0, 0⟩
        1 1 1 0 0 0 0 1 1 1 1 10).stop = true := by
  exact rayTerminate_backward_only_2din3d.1 ⟨0, 0, 0⟩ ⟨-1, 0, 0⟩ 1 0 0
    1 1 1 1 ⟨0, 0, 0⟩ 1 1 1 0 0 0 0 1 1 1 1 10 (by norm_num)

/-- C7 counterexample: the 2D escape stop fires with the top distances
negative but the bottom distances positive — not all four signed distances
indicate the ray is outside, contradicting the all-four reading. -/
theorem rayTerminate2D_escape_single_boundary :
    (RayTerminate2D ⟨⟨0, 0⟩, ⟨0, 0⟩, 1⟩ 0 (-1) 1 (-1) 1 1 1 10).stop = true
    ∧ ¬((1 : ℚ) < 0) := by
  constructor
  · norm_num [RayTerminate2D]
  · norm_num

/-- C7 (amended): with the box, energy and budget predicates false, the 2D
RayTerminate stops exactly when the ray was beyond the same boundary at both
the previous and the current step: (DistBegTop < 0 and DistEndTop < 0) or
(DistBegBot < 0 and DistEndBot < 0). -/
theorem rayTerminate2D_escaped_iff (pt : RayPt2) (is : ℤ)
    (dBT dBB dET dEB BoxR BoxZ : ℚ) (MaxN : ℤ)
    (hbx : |pt.x.x| ≤ BoxR) (hbz : |pt.x.y| ≤ BoxZ)
    (hA : 1 / 200 ≤ pt.Amp) (hbud : is < MaxN - 3) :
    ((RayTerminate2D pt is dBT dBB dET dEB BoxR BoxZ MaxN).stop = true
      ↔ ((dBT < 0 ∧ dET < 0) ∨ (dBB < 0 ∧ dEB < 0))) := by
  rw [rayTerminate2D_eq]
  by_cases hE : (dBT < 0 ∧ dET < 0) ∨ (dBB < 0 ∧ dEB < 0)
  · rw [if_pos (Or.inr (Or.inr hE))]
    simp [hE]
  · have hcond : ¬((|pt.x.x| > BoxR ∨ |pt.x.y| > BoxZ)
        ∨ pt.Amp < 1 / 200
        ∨ ((dBT < 0 ∧ dET < 0) ∨ (dBB < 0 ∧ dEB < 0))) := by
      rintro ((h | h) | h | h)
      · exact absurd h (not_lt.mpr hbx)
      · exact absurd h (not_lt.mpr hbz)
      · exact absurd h (not_lt.mpr hA)
      · exact hE h
    rw [if_neg hcond, if_neg (not_le.mpr hbud)]
    simp [hE]

/-- Witness for C7: both top distances negative stops the ray; all distances
positive does not. -/
theorem rayTerminate2D_escaped_iff_witness :
    (RayTerminate2D ⟨⟨0, 0⟩, ⟨0, 0⟩, 1⟩ 0 (-1) 1 (-1) 1 1 1 10).stop = true
    ∧ (RayTerminate2D ⟨⟨0, 0⟩, ⟨0, 0⟩, 1⟩ 0 1 1 1 1 1 1 10).stop = false := by
  constructor
  · exact (rayTerminate2D_escaped_iff ⟨⟨0, 0⟩, ⟨0, 0⟩, 1⟩ 0 (-1) 1 (-1) 1
      1 1 10 (by norm_num) (by norm_num) (by norm_num) (by norm_num)).mpr
      (Or.inl (by norm_num))
  · have h := rayTerminate2D_escaped_iff ⟨⟨0, 0⟩, ⟨0, 0⟩, 1⟩ 0 1 1 1 1
      1 1 10 (by norm_num) (by norm_num) (by norm_num) (by norm_num)
    rw [Bool.eq_false_iff]
    intro hs
    have hcontra := h.mp hs
    norm_num at hcontra

/-- C8 counterexample: the step-budget stop is a stop reason that records
`Nsteps = is` (here 7), not `is + 1`, refuting the claim that every stop
reason except the index-0 boundary exit records `is + 1`. -/
theorem rayTerminate2D_budget_records_is :
    RayTerminate2D ⟨⟨0, 0⟩, ⟨0, 0⟩, 1⟩ 7 1 1 1 1 1 1 10
        = ⟨true, some 7, true, 1, 1⟩
    ∧ some (7 : ℤ) ≠ some (7 + 1 : ℤ) := by
  constructor
  · norm_num [RayTerminate2D]
  · decide

/-- C8 (amended): a stop by the four stopping predicates records
`Nsteps = is + 1`, except that in the O3D branch an exit through the index-0
boundary edge records `Nsteps = is`; the separate step-budget check stops the
ray soft (returning true with the storage-insufficient warning, no error)
and also records `Nsteps = is`. -/
theorem rayTerminate_nsteps_accounting :
    (∀ (pt : RayPt2) (is : ℤ) (dBT dBB dET dEB BoxR BoxZ : ℚ) (MaxN : ℤ),
      ((|pt.x.x| > BoxR ∨ |pt.x.y| > BoxZ) ∨ pt.Amp < 1 / 200
        ∨ ((dBT < 0 ∧ dET < 0) ∨ (dBB < 0 ∧ dEB < 0))) →
      RayTerminate2D pt is dBT dBB dET dEB BoxR BoxZ MaxN
        = ⟨true, some (is + 1), false, dBT, dBB⟩)
    ∧ (∀ (pt : RayPt2) (is : ℤ) (dBT dBB dET dEB BoxR BoxZ : ℚ) (MaxN : ℤ),
      ¬((|pt.x.x| > BoxR ∨ |pt.x.y| > BoxZ) ∨ pt.Amp < 1 / 200
        ∨ ((dBT < 0 ∧ dET < 0) ∨ (dBB < 0 ∧ dEB < 0))) →
      MaxN - 3 ≤ is →
      RayTerminate2D pt is dBT dBB dET dEB BoxR BoxZ MaxN
        = ⟨true, some is, true, dBT, dBB⟩)
    ∧ (∀ (r3d : Bool) (xo t : Vec3) (Amp : ℚ) (is ictr : ℤ)
        (dBT dBB dET dEB : ℚ) (xs : Vec3)
        (BX BY BZ b0x t0x b0y t0y bNx tNx bNy tNy : ℚ) (MaxN : ℤ),
      ((|xo.x - xs.x| > BX ∨ |xo.y - xs.y| > BY ∨ |xo.z - xs.z| > BZ)
        ∨ Amp < 1 / 200
        ∨ ((xo.x < max b0x t0x ∨ xo.y < max b0y t0y)
            ∨ (xo.x > max bNx tNx ∨ xo.y > max bNy tNy))
        ∨ (r3d = false ∧ t.x < 0)) →
      ¬(xo.x < max b0x t0x ∨ xo.y < max b0y t0y) →
      RayTerminate3D r3d xo t Amp is ictr dBT dBB dET dEB xs BX BY BZ
          b0x t0x b0y t0y bNx tNx bNy tNy MaxN
        = ⟨true, some (is + 1), false, dBT, dBB⟩)
    ∧ (∀ (r3d : Bool) (xo t : Vec3) (Amp : ℚ) (is ictr : ℤ)
        (dBT dBB dET dEB : ℚ) (xs : Vec3)
        (BX BY BZ b0x t0x b0y t0y bNx tNx bNy tNy : ℚ) (MaxN : ℤ),
      (xo.x < max b0x t0x ∨ xo.y < max b0y t0y) →
      RayTerminate3D r3d xo t Amp is ictr dBT dBB dET dEB xs BX BY BZ
          b0x t0x b0y t0y bNx tNx bNy tNy MaxN
        = ⟨true, some is, false, dBT, dBB⟩)
    ∧ (∀ (r3d : Bool) (xo t : Vec3) (Amp : ℚ) (is ictr : ℤ)
        (dBT dBB dET dEB : ℚ) (xs : Vec3)
        (BX BY BZ b0x t0x b0y t0y bNx tNx bNy tNy : ℚ) (MaxN : ℤ),
      ¬((|xo.x - xs.x| > BX ∨ |xo.y - xs.y| > BY ∨ |xo.z - xs.z| > BZ)
        ∨ Amp < 1 / 200
        ∨ ((xo.x < max b0x t0x ∨ xo.y < max b0y t0y)
            ∨ (xo.x > max bNx tNx ∨ xo.y > max bNy tNy))
        ∨ (r3d = false ∧ t.x < 0)) →
      MaxN - 3 ≤ is →
      RayTerminate3D r3d xo t Amp is ictr dBT dBB dET dEB xs BX BY BZ
          b0x t0x b0y t0y bNx tNx bNy tNy MaxN
        = ⟨true, some is, true, dBT, dBB⟩) := by
  refine ⟨?_, ?_, ?_, ?_, ?_⟩
  · intro pt is dBT dBB dET dEB BoxR BoxZ MaxN h
    rw [rayTerminate2D_eq, if_pos h]
  · intro pt is dBT dBB dET dEB BoxR BoxZ MaxN h hbud
    rw [rayTerminate2D_eq, if_neg h, if_pos hbud]
  · intro r3d xo t Amp is ictr dBT dBB dET dEB xs BX BY BZ b0x t0x b0y t0y
      bNx tNx bNy tNy MaxN h h0
    rw [rayTerminate3D_eq, if_pos h, if_neg h0]
  · intro r3d xo t Amp is ictr dBT dBB dET dEB xs BX BY BZ b0x t0x b0y t0y
      bNx tNx bNy tNy MaxN h0
    rw [rayTerminate3D_eq, if_pos (Or.inr (Or.inr (Or.inl (Or.inl h0)))),
      if_pos h0]
  · intro r3d xo t Amp is ictr dBT dBB dET dEB xs BX BY BZ b0x t0x b0y t0y
      bNx tNx bNy tNy MaxN h hbud
    rw [rayTerminate3D_eq, if_neg h, if_pos hbud]

/-- Witness for C8 at concrete inputs: a 2D lost-energy stop records
`is + 1 = 1`; a 2D budget stop records `is = 7` with the warning; an O3D
backward stop away from the index-0 edge records `is + 1 = 4`; an O3D
index-0 escape records `is = 3`. -/
theorem rayTerminate_nsteps_accounting_witness :
    RayTerminate2D ⟨⟨0, 0⟩, ⟨0, 0⟩, 0⟩ 0 1 1 1 1 1 1 10
        = ⟨true, some 1, false, 1, 1⟩
    ∧ RayTerminate2D ⟨⟨0, 0⟩, ⟨0, 0⟩, 1⟩ 7 1 1 1 1 1 1 10
        = ⟨true, some 7, true, 1, 1⟩
    ∧ RayTerminate3D false ⟨0, 0, 0⟩ ⟨-1, 0, 0⟩ 1 3 0 1 1 1 1 ⟨0, 0, 0⟩
        1 1 1 (-2) (-2) (-2) (-2) 1 1 1 1 100 = ⟨true, some 4, false, 1, 1⟩
    ∧ RayTerminate3D true ⟨-5, 0, 0⟩ ⟨1, 0, 0⟩ 1 3 0 1 1 1 1 ⟨0, 0, 0⟩
        1 1 1 (-2) (-2) (-2) (-2) 1 1 1 1 100
        = ⟨true, some 3, false, 1, 1⟩ := by
  refine ⟨?_, ?_, ?_, ?_⟩
  · have h := rayTerminate_nsteps_accounting.1 ⟨⟨0, 0⟩, ⟨0, 0⟩, 0⟩ 0
      1 1 1 1 1 1 10 (Or.inr (Or.inl (by norm_num)))
    simpa using h
  · exact rayTerminate_nsteps_accounting.2.1 ⟨⟨0, 0⟩, ⟨0, 0⟩, 1⟩ 7
      1 1 1 1 1 1 10 (by norm_num) (by norm_num)
  · have h := rayTerminate_nsteps_accounting.2.2.1 false ⟨0, 0, 0⟩
      ⟨-1, 0, 0⟩ 1 3 0 1 1 1 1 ⟨0, 0, 0⟩ 1 1 1 (-2) (-2) (-2) (-2)
      1 1 1 1 100 (Or.inr (Or.inr (Or.inr ⟨rfl, by norm_num⟩)))
      (by norm_num)
    simpa using h
  · exact rayTerminate_nsteps_accounting.2.2.2.1 true ⟨-5, 0, 0⟩
      ⟨1, 0, 0⟩ 1 3 0 1 1 1 1 ⟨0, 0, 0⟩ 1 1 1 (-2) (-2) (-2) (-2)
      1 1 1 1 100 (Or.inl (by norm_num))

/-- C9 (confirmed): GetJobIndices decodes job j into source j / Nalpha and
angle j mod Nalpha, covering each (source, angle) pair by exactly one job
below NSz * Nalpha, and tells the worker to continue exactly while the
decoded source index is below NSz; with a fixed single launch angle the
source index is j itself and the angle is the fixed index. -/
theorem getJobIndices_decode_spec (Nalpha NSz : ℕ) (hN : 0 < Nalpha) :
    (∀ (job : ℕ) (iSg : ℤ), iSg < 0 →
      (GetJobIndices job iSg Nalpha NSz).1 = job / Nalpha
      ∧ (GetJobIndices job iSg Nalpha NSz).2.1 = job % Nalpha
      ∧ ((GetJobIndices job iSg Nalpha NSz).2.2 = true ↔ job / Nalpha < NSz)
      ∧ (job < NSz * Nalpha → job / Nalpha < NSz ∧ job % Nalpha < Nalpha))
    ∧ (∀ (iSg : ℤ), iSg < 0 → ∀ s a : ℕ, s < NSz → a < Nalpha →
        ∃! j : ℕ, j < NSz * Nalpha
          ∧ (GetJobIndices j iSg Nalpha NSz).1 = s
          ∧ (GetJobIndices j iSg Nalpha NSz).2.1 = a)
    ∧ (∀ (job : ℕ) (iSg : ℤ), 0 ≤ iSg →
        (GetJobIndices job iSg Nalpha NSz).1 = job
        ∧ (GetJobIndices job iSg Nalpha NSz).2.1 = iSg.toNat
        ∧ ((GetJobIndices job iSg Nalpha NSz).2.2 = true ↔ job < NSz)) := by
  refine ⟨?_, ?_, ?_⟩
  · intro job iSg hneg
    have hns : ¬(0 ≤ iSg) := not_le.mpr hneg
    refine ⟨by simp [GetJobIndices, hns], by simp [GetJobIndices, hns],
      by simp [GetJobIndices, hns], ?_⟩
    intro hj
    exact ⟨(Nat.div_lt_iff_lt_mul hN).mpr hj, Nat.mod_lt _ hN⟩
  · intro iSg hneg s a hs ha
    have hns : ¬(0 ≤ iSg) := not_le.mpr hneg
    have hdiv : (s * Nalpha + a) / Nalpha = s := by
      rw [Nat.mul_comm, Nat.mul_add_div hN, Nat.div_eq_of_lt ha]
      omega
    have hmod : (s * Nalpha + a) % Nalpha = a := by
      rw [Nat.mul_comm, Nat.mul_add_mod, Nat.mod_eq_of_lt ha]
    refine ⟨s * Nalpha + a, ⟨?_, ?_, ?_⟩, ?_⟩
    · calc s * Nalpha + a < s * Nalpha + Nalpha := by omega
        _ = (s + 1) * Nalpha := by ring
        _ ≤ NSz * Nalpha := Nat.mul_le_mul_right _ (by omega)
    · simp [GetJobIndices, hns, hdiv]
    · simp [GetJobIndices, hns, hmod]
    · rintro j ⟨hj, hjdiv, hjmod⟩
      simp [GetJobIndices, hns] at hjdiv hjmod
      have hdm := Nat.div_add_mod j Nalpha
      rw [hjdiv, hjmod] at hdm
      rw [← hdm, Nat.mul_comm]
  · intro job iSg hpos
    refine ⟨by simp [GetJobIndices, hpos], by simp [GetJobIndices, hpos],
      by simp [GetJobIndices, hpos]⟩

/-- Witness for C9: with 3 sources and 2 angles, job 5 decodes to source 2
and angle 1 and continues; job 6 decodes to source 3 and stops; with a fixed
angle, job 1 is source 1. -/
theorem getJobIndices_decode_spec_witness :
    (GetJobIndices 5 (-1) 2 3).1 = 2
    ∧ (GetJobIndices 5 (-1) 2 3).2.1 = 1
    ∧ (GetJobIndices 6 (-1) 2 3).2.2 = false
    ∧ (GetJobIndices 1 0 2 3).1 = 1 := by
  have h := getJobIndices_decode_spec 2 3 (by decide)
  refine ⟨?_, ?_, ?_, ?_⟩
  · have h1 := (h.1 5 (-1) (by decide)).1
    simpa using h1
  · have h1 := (h.1 5 (-1) (by decide)).2.1
    simpa using h1
  · have h1 := (h.1 6 (-1) (by decide)).2.2.1
    rw [Bool.eq_false_iff]
    intro hs
    exact absurd (h1.mp hs) (by decide)
  · exact (h.2.2 1 0 (by decide)).1

end BellhopProof
